import Mathlib

/-!
Shallow embedding of the polymarket-shadow-tracker core:
the position aggregation engine (`aggregate_trades` in
`aggregate_trades.py` / `fetch_all_trades.py`) and the per-timeframe
scorer / weight blender / capital simulator (`analyze-v2.py`).

Modelling conventions:
* Python floats are modelled by `ℚ` (the float literals `0.9`, `0.5`,
  `0.3`, `0.2`, `0.1` of the source become the corresponding rationals);
  the one genuinely real-valued operation, `math.sqrt`, is modelled by
  `Real.sqrt`, so the scorer's `std`/`sharpe` live in `ℝ`.
* Python's `round(x, d)` (round half to even) is `pyRound`.
* `str.lower()` is `pyLower` (per-character lowering of the data).
* A fill's `timestamp` is an epoch-second `ℕ`; `0` encodes a missing /
  falsy timestamp (the source's `t.get("timestamp", 0)` default).
  `ts_to_iso` of the source is a strictly monotone injection from
  nonzero epoch seconds to ISO strings (and maps the empty case to
  `""`), so the `firstTrade`/`lastTrade` string fields are modelled by
  `Option ℕ` (`none` standing for `""`).
* `datetime` comparisons in `analyze-v2.py` are comparisons of the
  underlying epoch seconds (`datetime.utcfromtimestamp` is strictly
  monotone), so time-window starts are epoch-second integers.
* Python's insertion-ordered `dict` grouping (`defaultdict`) is
  modelled by the first-seen key list `marketKeys` together with the
  per-key accumulator fold `accOf`; `list.sort` (a stable sort) is
  modelled by the stable insertion sort `isort`.
-/

namespace ShadowTracker

/-! ### Python round-half-to-even on rationals -/

/-- Python's `round` to an integer: round half to even. -/
def pyRoundInt (x : ℚ) : ℤ :=
  if x - ⌊x⌋ < 1/2 then ⌊x⌋
  else if 1/2 < x - ⌊x⌋ then ⌊x⌋ + 1
  else if Even ⌊x⌋ then ⌊x⌋ else ⌊x⌋ + 1

/-- Python's `round(x, d)`. -/
def pyRound (x : ℚ) (d : ℕ) : ℚ := (pyRoundInt (x * 10 ^ d) : ℚ) / 10 ^ d

/-! ### Stable insertion sort (model of Python's stable `list.sort`) -/

/-- Insert `x` into `l`, before the first element `y` with `le x y`. -/
def insertLe (le : α → α → Bool) (x : α) : List α → List α
  | [] => [x]
  | y :: ys => if le x y then x :: y :: ys else y :: insertLe le x ys

/-- Stable insertion sort with a boolean comparison. -/
def isort (le : α → α → Bool) : List α → List α
  | [] => []
  | x :: xs => insertLe le x (isort le xs)

/-! ### Fills and per-market accumulators (`aggregate_trades.py`) -/

/-- One raw fill record, with the fields `aggregate_trades` reads
(defaults already applied: numbers default to 0, strings to `""`). -/
structure Trade where
  slug : String
  outcome : String
  side : String
  eventType : String
  price : ℚ
  usdcSize : ℚ
  size : ℚ
  timestamp : ℕ
  title : String
deriving DecidableEq

/-- The `{"usdc":…, "price":…, "size":…, "ts":…}` entry appended to a
bucket of the per-market accumulator. -/
structure Entry where
  usdc : ℚ
  price : ℚ
  size : ℚ
  ts : ℕ
deriving DecidableEq

/-- The per-market accumulator of the grouping pass. -/
structure MarketAcc where
  buys : List Entry
  sells : List Entry
  redemptions : List Entry
  title : String
  outcome : String
  slug : String
deriving DecidableEq

/-- The `defaultdict` default value. -/
def emptyAcc : MarketAcc := ⟨[], [], [], "", "", ""⟩

/-- `slug = t.get("slug", "") or "unknown"`. -/
def tradeSlug (t : Trade) : String := if t.slug = "" then "unknown" else t.slug

/-- `title = t.get("title", "") or slug`. -/
def tradeTitle (t : Trade) : String := if t.title = "" then tradeSlug t else t.title

/-- The grouping key `f"{slug}|{outcome}"`. -/
def tradeKey (t : Trade) : String := tradeSlug t ++ "|" ++ t.outcome

/-- The bucket entry built from a fill. -/
def tradeEntry (t : Trade) : Entry := ⟨t.usdcSize, t.price, t.size, t.timestamp⟩

/-- One loop iteration of the grouping pass on the accumulator of the
fill's own key: the metadata updates (`title or m["title"]`, `slug`,
`outcome or m["outcome"]`) followed by the redemption / BUY / SELL
bucket dispatch (any other side only updates the metadata). -/
def updAcc (m : MarketAcc) (t : Trade) : MarketAcc :=
  let m1 : MarketAcc :=
    { m with
        title := if tradeTitle t = "" then m.title else tradeTitle t
        slug := tradeSlug t
        outcome := if t.outcome = "" then m.outcome else t.outcome }
  if t.eventType = "REDEMPTION" then
    { m1 with redemptions := m1.redemptions ++ [tradeEntry t] }
  else if t.side = "BUY" then { m1 with buys := m1.buys ++ [tradeEntry t] }
  else if t.side = "SELL" then { m1 with sells := m1.sells ++ [tradeEntry t] }
  else m1

/-- The accumulator a key `k` holds after the grouping pass. -/
def accOf (trades : List Trade) (k : String) : MarketAcc :=
  trades.foldl (fun m t => if tradeKey t = k then updAcc m t else m) emptyAcc

/-- The keys of the grouping dict, in first-seen order. -/
def marketKeys (trades : List Trade) : List String :=
  trades.foldl (fun ks t => if tradeKey t ∈ ks then ks else ks ++ [tradeKey t]) []

/-- The grouping dict: key / accumulator pairs in first-seen key order. -/
def buildMarkets (trades : List Trade) : List (String × MarketAcc) :=
  (marketKeys trades).map (fun k => (k, accOf trades k))

/-! ### Derived per-position quantities -/

/-- `total_bought = sum(b["usdc"] for b in buys)`. -/
def totalBought (m : MarketAcc) : ℚ := (m.buys.map Entry.usdc).sum

/-- `total_sold = sum(s["usdc"] for s in sells) + sum(r["usdc"] for r in redemptions)`. -/
def totalSold (m : MarketAcc) : ℚ :=
  (m.sells.map Entry.usdc).sum + (m.redemptions.map Entry.usdc).sum

/-- `buy_size = sum(b["size"] for b in buys)`. -/
def buySize (m : MarketAcc) : ℚ := (m.buys.map Entry.size).sum

/-- `sell_size = sum(s["size"] for s in sells)`. -/
def sellSize (m : MarketAcc) : ℚ := (m.sells.map Entry.size).sum

/-- `exits = sells + redemptions`. -/
def exitsOf (m : MarketAcc) : List Entry := m.sells ++ m.redemptions

/-- `total_exit_size = sum(e["size"] for e in exits)`. -/
def totalExitSize (m : MarketAcc) : ℚ := ((exitsOf m).map Entry.size).sum

/-- Size-weighted average entry price (0 when there are no buys). -/
def avgEntry (m : MarketAcc) : ℚ :=
  if 0 < buySize m then (m.buys.map (fun b => b.price * b.size)).sum / buySize m else 0

/-- Size-weighted average exit price (0 when there are no exits). -/
def avgExit (m : MarketAcc) : ℚ :=
  if 0 < totalExitSize m then
    ((exitsOf m).map (fun e => e.price * e.size)).sum / totalExitSize m
  else 0

/-- The timestamps of all constituent fills, in bucket order. -/
def fillTs (m : MarketAcc) : List ℕ :=
  ((m.buys ++ m.sells ++ m.redemptions).map Entry.ts)

/-- The boolean ordering used to sort timestamps. -/
def natLe (a b : ℕ) : Bool := a ≤ b

/-- `all_ts`: the truthy (nonzero) fill timestamps, sorted ascending. -/
def allTs (m : MarketAcc) : List ℕ :=
  isort natLe ((fillTs m).filter (fun ts => ts ≠ 0))

/-- The closed/open classification:
`"closed"` on a redemption, or when `sell_size >= buy_size * 0.9 and buy_size > 0`. -/
def statusOf (m : MarketAcc) : String :=
  if m.redemptions ≠ [] then "closed"
  else if sellSize m ≥ buySize m * (9/10) ∧ 0 < buySize m then "closed"
  else "open"

/-- `pnl = total_sold - total_bought` (before reporting rounding). -/
def pnlOf (m : MarketAcc) : ℚ := totalSold m - totalBought m

/-- One aggregated position record as emitted by `aggregate_trades`. -/
structure Position where
  market : String
  slug : String
  outcome : String
  status : String
  totalBought : ℚ
  totalSold : ℚ
  pnl : ℚ
  avgEntryPrice : ℚ
  avgExitPrice : ℚ
  firstTrade : Option ℕ
  lastTrade : Option ℕ
  tradeCount : ℕ
deriving DecidableEq

/-- The position record built from one market accumulator. -/
def mkPosition (m : MarketAcc) : Position :=
  { market := m.title
    slug := m.slug
    outcome := m.outcome
    status := statusOf m
    totalBought := pyRound (totalBought m) 2
    totalSold := pyRound (totalSold m) 2
    pnl := pyRound (pnlOf m) 2
    avgEntryPrice := pyRound (avgEntry m) 4
    avgExitPrice := pyRound (avgExit m) 4
    firstTrade := (allTs m).head?
    lastTrade := (allTs m).getLast?
    tradeCount := m.buys.length + m.sells.length + m.redemptions.length }

/-- `aggregate_trades`: group, derive, and stable-sort by `abs(pnl)`
descending. -/
def aggregate_trades (trades : List Trade) : List Position :=
  isort (fun a b => |b.pnl| ≤ |a.pnl|)
    ((buildMarkets trades).map (fun p => mkPosition p.2))

/-! ### Per-window performance scorer (`calc_stats` in `analyze-v2.py`) -/

/-- `mean = sum(returns) / n`. -/
def calcMean (returns : List ℚ) : ℚ := returns.sum / returns.length

/-- `var = sum((r - mean)**2 for r in returns) / n` (the population
variance the source computes inside its `n > 1` branch). -/
def calcVar (returns : List ℚ) : ℚ :=
  (returns.map (fun r => (r - calcMean returns) ^ 2)).sum / returns.length

/-- `std = math.sqrt(var)` when `n > 1`, else `std = 0`. -/
noncomputable def calcStd (returns : List ℚ) : ℝ :=
  if 1 < returns.length then Real.sqrt (calcVar returns) else 0

/-- `sharpe = mean / std if std > 0 else (1.0 if mean > 0 else 0)`. -/
noncomputable def calcSharpe (returns : List ℚ) : ℝ :=
  if 0 < calcStd returns then (calcMean returns : ℝ) / calcStd returns
  else if 0 < calcMean returns then 1 else 0

/-- Python's `round` to an integer on a real argument. -/
noncomputable def pyRoundIntR (x : ℝ) : ℤ :=
  if x - ⌊x⌋ < 1/2 then ⌊x⌋
  else if 1/2 < x - ⌊x⌋ then ⌊x⌋ + 1
  else if Even ⌊x⌋ then ⌊x⌋ else ⌊x⌋ + 1

/-- Python's `round(x, d)` on a real argument. -/
noncomputable def pyRoundR (x : ℝ) (d : ℕ) : ℝ := (pyRoundIntR (x * 10 ^ d) : ℝ) / 10 ^ d

/-- The per-trader per-timeframe stats dict returned by `calc_stats`. -/
structure WindowStats where
  trades : ℕ
  winRate : ℚ
  avgReturn : ℚ
  volatility : ℝ
  sharpe : ℝ
  totalPnl : ℚ

/-- `calc_stats(returns, pnls)`: the all-zero dict on empty input,
otherwise the reported (rounded) statistics. -/
noncomputable def calc_stats (returns pnls : List ℚ) : WindowStats :=
  if returns = [] then ⟨0, 0, 0, 0, 0, 0⟩
  else
    { trades := returns.length
      winRate := pyRound ((returns.countP (fun r => 0 < r) : ℚ) / returns.length * 100) 1
      avgReturn := pyRound (calcMean returns * 100) 2
      volatility := pyRoundR (calcStd returns * 100) 2
      sharpe := pyRoundR (calcSharpe returns) 3
      totalPnl := pyRound pnls.sum 2 }

/-! ### Cluster boost, insider multiplier, weight blender, tiers -/

/-- `ACTIVE_CLUSTERS` of `analyze-v2.py`. -/
def ACTIVE_CLUSTERS : List String :=
  ["iran", "fed", "geopolitics", "politics", "crypto", "tech", "sports", "ufc", "mma"]

/-- `PLAYED_OUT` of `analyze-v2.py`. -/
def PLAYED_OUT : List String := ["election-2024", "election"]

/-- Python's `str.lower()` (per-character lowering). -/
def pyLower (s : String) : String := ⟨s.data.map Char.toLower⟩

/-- `cluster_boost`: 1 on the empty label, `0.3` on a played-out
cluster, `1.5` on an active cluster, else 1. -/
def cluster_boost (cluster : String) : ℚ :=
  if cluster = "" then 1
  else if pyLower cluster ∈ PLAYED_OUT then 3/10
  else if pyLower cluster ∈ ACTIVE_CLUSTERS then 3/2
  else 1

/-- `insider_mult`: the `{HIGH:2, EXTREME:2.5, MEDIUM:1, LOW:0.5}`
lookup, defaulting to `0.5`. -/
def insider_mult (risk : String) : ℚ :=
  if risk = "HIGH" then 2
  else if risk = "EXTREME" then 5/2
  else if risk = "MEDIUM" then 1
  else if risk = "LOW" then 1/2
  else 1/2

/-- `blended = 0.5*s3m + 0.3*s6m + 0.2*s1y`. -/
def blend (s3m s6m s1y : ℚ) : ℚ := (1/2) * s3m + (3/10) * s6m + (1/5) * s1y

/-- The tier ladder on the blended sharpe. -/
def tier (b : ℚ) : String :=
  if b ≥ 3/2 then "S"
  else if b ≥ 1 then "A"
  else if b ≥ 1/2 then "B"
  else if b ≥ 0 then "C"
  else "D"

/-- `rec_weight = round(max(0.1, min(3.0, blended)) * insider_mult(…) * cluster_boost(…), 3)`. -/
def rec_weight (blended : ℚ) (risk cluster : String) : ℚ :=
  pyRound (max (1/10) (min 3 blended) * insider_mult risk * cluster_boost cluster) 3

/-! ### Capital simulator (`analyze-v2.py` strategy loops) -/

/-- `STARTING_CAPITAL = 10000`. -/
def STARTING_CAPITAL : ℚ := 10000

/-- `BASE_POSITION = 1000`. -/
def BASE_POSITION : ℚ := 1000

/-- The per-trader sharpe fed to the simulator:
`max(0.1, sharpe) if sharpe > 0 else 0.1`. -/
def tf_sharpe_val (s : ℚ) : ℚ := if 0 < s then max (1/10) s else 1/10

/-- A position as seen by the Optimal policy loop: the trader's
per-window sharpe, insider risk, cluster, and the position's return. -/
structure OptPos where
  sharpe : ℚ
  insiderRisk : String
  cluster : String
  ret : ℚ
deriving DecidableEq

/-- `ow = sw * insider_mult(...) * cluster_boost(...)` with
`sw = min(tf_sharpe[addr], 3)`. -/
def opt_weight (p : OptPos) : ℚ :=
  min (tf_sharpe_val p.sharpe) 3 * insider_mult p.insiderRisk * cluster_boost p.cluster

/-- `opt_size = min(BASE_POSITION * ow, opt_cap * 0.1)`. -/
def opt_size (cap : ℚ) (p : OptPos) : ℚ :=
  min (BASE_POSITION * opt_weight p) (cap * (1/10))

/-- `opt_cap += opt_size * ret`. -/
def opt_step (cap : ℚ) (p : OptPos) : ℚ := cap + opt_size cap p * p.ret

/-- The Optimal policy capital trajectory (capital before each
position, then the final capital). -/
def opt_traj (ps : List OptPos) : List ℚ := List.scanl opt_step STARTING_CAPITAL ps

/-- A position as seen by the Recency-Optimal loop: the trader's
blended sharpe, insider risk, cluster, and the position's return
(`w = weights[addr]['recommendedWeight']`). -/
structure RbPos where
  blended : ℚ
  insiderRisk : String
  cluster : String
  ret : ℚ
deriving DecidableEq

/-- The recency-blended recommended weight of the position's trader. -/
def rb_weight (p : RbPos) : ℚ := rec_weight p.blended p.insiderRisk p.cluster

/-- `rb_size = min(BASE_POSITION * w, rb_cap * 0.1)`. -/
def rb_size (cap : ℚ) (p : RbPos) : ℚ :=
  min (BASE_POSITION * rb_weight p) (cap * (1/10))

/-- `rb_cap += rb_size * ret`. -/
def rb_step (cap : ℚ) (p : RbPos) : ℚ := cap + rb_size cap p * p.ret

/-- The Recency-Optimal policy capital trajectory. -/
def rb_traj (ps : List RbPos) : List ℚ := List.scanl rb_step STARTING_CAPITAL ps

/-! ### Time windows (`analyze-v2.py` timeframes) -/

/-- `NOW = datetime(2026, 2, 14)` as epoch seconds. -/
def NOW_TS : ℤ := 1771027200

/-- `datetime(2026, 1, 1)` as epoch seconds. -/
def YTD_START : ℤ := 1767225600

/-- `datetime(2020, 1, 1)` as epoch seconds: the start of the `ALL`
window. -/
def ALL_START : ℤ := 1577836800

/-- The named windows and their start instants. -/
def timeframes : List (String × ℤ) :=
  [("3M", NOW_TS - 90 * 86400), ("6M", NOW_TS - 180 * 86400),
   ("1Y", NOW_TS - 365 * 86400), ("YTD", YTD_START), ("ALL", ALL_START)]

/-- A record of `all_positions` as the window selector sees it:
its exit timestamp (`exit_ts`) and its return. -/
structure AnalyzedPos where
  exit_ts : ℤ
  ret : ℚ
deriving DecidableEq

/-- `[p for p in all_positions if p['exit_date'] >= start]`. -/
def tf_select (start : ℤ) (ps : List AnalyzedPos) : List AnalyzedPos :=
  ps.filter (fun p => start ≤ p.exit_ts)

/-! ### Fill classification predicates and concrete sample inputs -/

/-- A fill landing in the `buys` bucket. -/
def isBuyFill (t : Trade) : Bool := decide (t.eventType ≠ "REDEMPTION" ∧ t.side = "BUY")

/-- A fill landing in the `sells` bucket. -/
def isSellFill (t : Trade) : Bool :=
  decide (t.eventType ≠ "REDEMPTION" ∧ t.side ≠ "BUY" ∧ t.side = "SELL")

/-- A fill landing in the `redemptions` bucket. -/
def isRedFill (t : Trade) : Bool := decide (t.eventType = "REDEMPTION")

/-- An accumulator with buy size 100 and sell size exactly 90. -/
def boundaryClosedAcc : MarketAcc :=
  ⟨[⟨50, 1/2, 100, 1⟩], [⟨90, 1, 90, 2⟩], [], "m", "Yes", "m"⟩

/-- An accumulator with buy size 100 and sell size 89.999. -/
def boundaryOpenAcc : MarketAcc :=
  ⟨[⟨50, 1/2, 100, 1⟩], [⟨90, 1, 89999/1000, 2⟩], [], "m", "Yes", "m"⟩

/-- Two buy fills of one market, one with a missing (zero) timestamp
and one at epoch second 100. -/
def exTsTrades : List Trade :=
  [⟨"s", "o", "BUY", "TRADE", 1/2, 5, 10, 0, "T"⟩,
   ⟨"s", "o", "BUY", "TRADE", 1/2, 5, 10, 100, "T"⟩]

/-- Two fills of one market whose side is neither BUY nor SELL and
whose type is not REDEMPTION, with titles "A" then "B". -/
def exSideTrades : List Trade :=
  [⟨"s", "o", "", "TRADE", 0, 0, 0, 7, "A"⟩,
   ⟨"s", "o", "", "TRADE", 0, 0, 0, 9, "B"⟩]

/-- A buy fill and a sell fill of one market (used to permute). -/
def exPermBuy : Trade := ⟨"s", "o", "BUY", "TRADE", 1/2, 5, 10, 100, "T"⟩

/-- The sell counterpart of `exPermBuy`'s market. -/
def exPermSell : Trade := ⟨"s", "o", "SELL", "TRADE", 3/5, 6, 10, 200, "T"⟩

/-- Optimal-policy position: weight 1 (sharpe 1, MEDIUM, no boost),
return +10%. -/
def optPosA : OptPos := ⟨1, "MEDIUM", "other", 1/10⟩

/-- Optimal-policy position: weight 0.5 (sharpe 1, LOW, no boost),
return +20%. -/
def optPosB : OptPos := ⟨1, "LOW", "other", 1/5⟩

/-- Optimal-policy position: weight 1, return +20%. -/
def optPosC : OptPos := ⟨1, "MEDIUM", "other", 1/5⟩

/-- Recency-policy position: recommended weight 1, return +10%. -/
def rbPosA : RbPos := ⟨1, "MEDIUM", "other", 1/10⟩

/-- Recency-policy position: recommended weight 1, return +20%. -/
def rbPosB : RbPos := ⟨1, "MEDIUM", "other", 1/5⟩

/-- A position whose exit falls after the ALL window start. -/
def exAnalyzed : AnalyzedPos := ⟨1600000000, 0⟩

/-! ## Theorems -/

/-- The insider multiplier is at least 0.5. -/
lemma insider_mult_ge (r : String) : 1/2 ≤ insider_mult r := by
  unfold insider_mult
  split_ifs <;> norm_num

/-- The cluster boost is at least 0.3. -/
lemma cluster_boost_ge (c : String) : 3/10 ≤ cluster_boost c := by
  unfold cluster_boost
  split_ifs <;> norm_num

/-- Rounding half to even never goes below the floor. -/
lemma pyRoundInt_ge_floor (x : ℚ) : ⌊x⌋ ≤ pyRoundInt x := by
  unfold pyRoundInt
  split_ifs <;> omega

/-- Rounding to 3 decimals keeps a number that is at least 0.015
strictly positive. -/
lemma pyRound_pos_of_ge {x : ℚ} (hx : 3/200 ≤ x) : 0 < pyRound x 3 := by
  have h15 : (15 : ℤ) ≤ ⌊x * 10 ^ 3⌋ := by
    rw [Int.le_floor]
    push_cast
    linarith
  have h2 : (15 : ℤ) ≤ pyRoundInt (x * 10 ^ 3) :=
    le_trans h15 (pyRoundInt_ge_floor _)
  have h3 : (15 : ℚ) ≤ (pyRoundInt (x * 10 ^ 3) : ℚ) := by exact_mod_cast h2
  unfold pyRound
  apply div_pos (by linarith) (by norm_num)

/-- The recommended weight is strictly positive on every input. -/
lemma rec_weight_pos (b : ℚ) (r c : String) : 0 < rec_weight b r c := by
  apply pyRound_pos_of_ge
  have h1 : (1/10 : ℚ) ≤ max (1/10) (min 3 b) := le_max_left _ _
  have h2 := insider_mult_ge r
  have h3 := cluster_boost_ge c
  have h4 : (1/20 : ℚ) ≤ max (1/10) (min 3 b) * insider_mult r := by nlinarith
  nlinarith

/-- C1: an aggregated position's status is `"closed"` iff it has at
least one redemption fill, or its cumulative sell share-size is at
least 0.9 times a strictly positive cumulative buy share-size, and is
`"open"` otherwise; buy size 100 with sell size exactly 90 is closed,
with sell size 89.999 it is open. -/
theorem C1_status_closed_iff :
    (∀ m : MarketAcc,
      (statusOf m = "closed" ↔
        m.redemptions ≠ [] ∨ (buySize m * (9/10) ≤ sellSize m ∧ 0 < buySize m)) ∧
      (statusOf m = "open" ↔
        ¬(m.redemptions ≠ [] ∨ (buySize m * (9/10) ≤ sellSize m ∧ 0 < buySize m)))) ∧
    buySize boundaryClosedAcc = 100 ∧ sellSize boundaryClosedAcc = 90 ∧
    statusOf boundaryClosedAcc = "closed" ∧
    buySize boundaryOpenAcc = 100 ∧ sellSize boundaryOpenAcc = 89999/1000 ∧
    statusOf boundaryOpenAcc = "open" := by
  have hmain : ∀ m : MarketAcc,
      (statusOf m = "closed" ↔
        m.redemptions ≠ [] ∨ (buySize m * (9/10) ≤ sellSize m ∧ 0 < buySize m)) ∧
      (statusOf m = "open" ↔
        ¬(m.redemptions ≠ [] ∨ (buySize m * (9/10) ≤ sellSize m ∧ 0 < buySize m))) := by
    intro m
    unfold statusOf
    by_cases h1 : m.redemptions ≠ []
    · simp [h1]
    · by_cases h2 : sellSize m ≥ buySize m * (9/10) ∧ 0 < buySize m
      · simp [h1, h2]
      · simp [h1, h2]
  refine ⟨hmain, ?_, ?_, ?_, ?_, ?_, ?_⟩
  · simp [boundaryClosedAcc, buySize]
  · simp [boundaryClosedAcc, sellSize]
  · rw [(hmain boundaryClosedAcc).1]
    right
    refine ⟨by norm_num [boundaryClosedAcc, buySize, sellSize], ?_⟩
    norm_num [boundaryClosedAcc, buySize]
  · simp [boundaryOpenAcc, buySize]
  · simp [boundaryOpenAcc, sellSize]
  · rw [(hmain boundaryOpenAcc).2]
    simp [boundaryOpenAcc, buySize, sellSize]
    norm_num

/-- C3: the blender computes `0.5*s3m + 0.3*s6m + 0.2*s1y`, the tier
bands are S/A/B/C/D with inclusive lower bounds 1.5/1.0/0.5/0.0, and
sharpes (2, 1, 0) blend to 1.3 and tier A. -/
theorem C3_blend_tier :
    (∀ s3m s6m s1y : ℚ, blend s3m s6m s1y = (1/2) * s3m + (3/10) * s6m + (1/5) * s1y) ∧
    (∀ b : ℚ,
      (tier b = "S" ↔ 3/2 ≤ b) ∧
      (tier b = "A" ↔ 1 ≤ b ∧ b < 3/2) ∧
      (tier b = "B" ↔ 1/2 ≤ b ∧ b < 1) ∧
      (tier b = "C" ↔ 0 ≤ b ∧ b < 1/2) ∧
      (tier b = "D" ↔ b < 0)) ∧
    blend 2 1 0 = 13/10 ∧ tier (blend 2 1 0) = "A" := by
  have htier : ∀ b : ℚ,
      (tier b = "S" ↔ 3/2 ≤ b) ∧
      (tier b = "A" ↔ 1 ≤ b ∧ b < 3/2) ∧
      (tier b = "B" ↔ 1/2 ≤ b ∧ b < 1) ∧
      (tier b = "C" ↔ 0 ≤ b ∧ b < 1/2) ∧
      (tier b = "D" ↔ b < 0) := by
    intro b
    unfold tier
    split_ifs with h1 h2 h3 h4 <;>
      refine ⟨?_, ?_, ?_, ?_, ?_⟩ <;> simp <;>
      first
        | linarith
        | (intro h; linarith)
        | (constructor <;> linarith)
  have hblend : blend 2 1 0 = 13/10 := by norm_num [blend]
  refine ⟨fun _ _ _ => rfl, htier, hblend, ?_⟩
  rw [hblend, ((htier (13/10)).2.1).2]
  norm_num

/-- C5: the recommended weight is the blended sharpe clamped to
`[0.1, 3.0]` times the insider multiplier (EXTREME 2.5, HIGH 2,
MEDIUM 1, LOW 0.5, default 0.5) times the cluster boost, rounded to 3
decimals, and it is strictly positive on every input. -/
theorem C5_rec_weight :
    (∀ (b : ℚ) (r c : String),
      rec_weight b r c =
        pyRound (max (1/10) (min 3 b) * insider_mult r * cluster_boost c) 3) ∧
    insider_mult "EXTREME" = 5/2 ∧ insider_mult "HIGH" = 2 ∧
    insider_mult "MEDIUM" = 1 ∧ insider_mult "LOW" = 1/2 ∧
    (∀ r : String, r ≠ "EXTREME" → r ≠ "HIGH" → r ≠ "MEDIUM" → r ≠ "LOW" →
      insider_mult r = 1/2) ∧
    (∀ (b : ℚ) (r c : String), 0 < rec_weight b r c) := by
  refine ⟨fun _ _ _ => rfl, by simp [insider_mult], by simp [insider_mult],
    by simp [insider_mult], by simp [insider_mult], ?_, fun b r c => rec_weight_pos b r c⟩
  intro r h1 h2 h3 h4
  simp [insider_mult, h1, h2, h3, h4]

/-- C5 witness: an unrecognized risk label gets the default 0.5. -/
theorem C5_rec_weight_witness : insider_mult "UNKNOWN" = 1/2 :=
  C5_rec_weight.2.2.2.2.2.1 "UNKNOWN" (by decide) (by decide) (by decide) (by decide)

/-- C9: the ALL window starts at 2020-01-01; when every record's exit
falls at or after that instant, selecting with the ALL window returns
the entire position list. -/
theorem C9_all_window (ps : List AnalyzedPos)
    (h : ∀ p ∈ ps, ALL_START ≤ p.exit_ts) :
    ("ALL", ALL_START) ∈ timeframes ∧
    tf_select ALL_START ps = ps ∧
    ∀ p ∈ ps, p ∈ tf_select ALL_START ps := by
  have hsel : tf_select ALL_START ps = ps := by
    unfold tf_select
    rw [List.filter_eq_self]
    intro p hp
    simpa using h p hp
  refine ⟨by simp [timeframes], hsel, ?_⟩
  intro p hp
  rw [hsel]
  exact hp

/-- C9 witness: a one-position list exiting in 2020 is fully selected
by the ALL window. -/
theorem C9_all_window_witness :
    tf_select ALL_START [exAnalyzed] = [exAnalyzed] :=
  (C9_all_window [exAnalyzed]
    (by intro p hp; rw [List.mem_singleton] at hp; subst hp; decide)).2.1

/-- The simulator's per-trader sharpe value is at least 0.1. -/
lemma tf_sharpe_val_ge (s : ℚ) : 1/10 ≤ tf_sharpe_val s := by
  unfold tf_sharpe_val
  split_ifs
  · exact le_max_left _ _
  · exact le_refl _

/-- The Optimal policy per-position weight is strictly positive. -/
lemma opt_weight_pos (p : OptPos) : 0 < opt_weight p := by
  unfold opt_weight
  have h1 : (1/10 : ℚ) ≤ min (tf_sharpe_val p.sharpe) 3 :=
    le_min (tf_sharpe_val_ge _) (by norm_num)
  have h2 := insider_mult_ge p.insiderRisk
  have h3 := cluster_boost_ge p.cluster
  have hA : (0:ℚ) < min (tf_sharpe_val p.sharpe) 3 := lt_of_lt_of_le (by norm_num) h1
  have hB : (0:ℚ) < insider_mult p.insiderRisk := lt_of_lt_of_le (by norm_num) h2
  have hC : (0:ℚ) < cluster_boost p.cluster := lt_of_lt_of_le (by norm_num) h3
  exact mul_pos (mul_pos hA hB) hC

/-- One capped compounding step keeps the capital non-negative when
the weight is non-negative and the return is at least −1. -/
lemma cap_step_nonneg {w cap ret : ℚ} (hw : 0 ≤ w) (hcap : 0 ≤ cap)
    (hret : -1 ≤ ret) :
    0 ≤ cap + min (BASE_POSITION * w) (cap * (1/10)) * ret := by
  have hs0 : 0 ≤ min (BASE_POSITION * w) (cap * (1/10)) := by
    apply le_min
    · have : (0:ℚ) ≤ BASE_POSITION := by norm_num [BASE_POSITION]
      exact mul_nonneg this hw
    · nlinarith
  have hsle : min (BASE_POSITION * w) (cap * (1/10)) ≤ cap * (1/10) :=
    min_le_right _ _
  nlinarith [mul_le_mul_of_nonneg_left hret hs0]

/-- Every capital in an Optimal-policy replay from a non-negative
start stays non-negative when all returns are at least −1. -/
lemma opt_scanl_nonneg :
    ∀ (ps : List OptPos) (cap : ℚ), 0 ≤ cap → (∀ p ∈ ps, -1 ≤ p.ret) →
      ∀ c ∈ List.scanl opt_step cap ps, 0 ≤ c := by
  intro ps
  induction ps with
  | nil =>
    intro cap hc _ c hcm
    rw [List.scanl_nil, List.mem_singleton] at hcm
    subst hcm
    exact hc
  | cons p ps ih =>
    intro cap hc hr c hcm
    rw [List.scanl_cons] at hcm
    rcases List.mem_append.1 hcm with hcm | hcm
    · rw [List.mem_singleton] at hcm
      subst hcm
      exact hc
    · refine ih (opt_step cap p) ?_ (fun q hq => hr q (List.mem_cons_of_mem _ hq)) c hcm
      exact cap_step_nonneg (le_of_lt (opt_weight_pos p)) hc (hr p (List.mem_cons_self p ps))

/-- Every capital in a Recency-Optimal replay from a non-negative
start stays non-negative when all returns are at least −1. -/
lemma rb_scanl_nonneg :
    ∀ (ps : List RbPos) (cap : ℚ), 0 ≤ cap → (∀ p ∈ ps, -1 ≤ p.ret) →
      ∀ c ∈ List.scanl rb_step cap ps, 0 ≤ c := by
  intro ps
  induction ps with
  | nil =>
    intro cap hc _ c hcm
    rw [List.scanl_nil, List.mem_singleton] at hcm
    subst hcm
    exact hc
  | cons p ps ih =>
    intro cap hc hr c hcm
    rw [List.scanl_cons] at hcm
    rcases List.mem_append.1 hcm with hcm | hcm
    · rw [List.mem_singleton] at hcm
      subst hcm
      exact hc
    · refine ih (rb_step cap p) ?_ (fun q hq => hr q (List.mem_cons_of_mem _ hq)) c hcm
      exact cap_step_nonneg (le_of_lt (rec_weight_pos p.blended p.insiderRisk p.cluster))
        hc (hr p (List.mem_cons_self p ps))

/-- C4: under the Optimal and Recency-Optimal policies the realized
position size is `min(BASE_POSITION * weight, 0.1 * capitalBefore)`,
hence never exceeds a tenth of the capital held before the position,
and when every return is at least −1 the whole capital trajectory
stays non-negative. -/
theorem C4_capital_cap (ps : List OptPos) (qs : List RbPos)
    (hps : ∀ p ∈ ps, -1 ≤ p.ret) (hqs : ∀ q ∈ qs, -1 ≤ q.ret) :
    (∀ (cap : ℚ) (p : OptPos),
      opt_size cap p = min (BASE_POSITION * opt_weight p) (cap * (1/10)) ∧
      opt_size cap p ≤ (1/10) * cap) ∧
    (∀ (cap : ℚ) (q : RbPos),
      rb_size cap q = min (BASE_POSITION * rb_weight q) (cap * (1/10)) ∧
      rb_size cap q ≤ (1/10) * cap) ∧
    (∀ c ∈ opt_traj ps, 0 ≤ c) ∧ (∀ c ∈ rb_traj qs, 0 ≤ c) := by
  refine ⟨?_, ?_, ?_, ?_⟩
  · intro cap p
    refine ⟨rfl, ?_⟩
    rw [mul_comm (1/10 : ℚ) cap]
    exact min_le_right _ _
  · intro cap q
    refine ⟨rfl, ?_⟩
    rw [mul_comm (1/10 : ℚ) cap]
    exact min_le_right _ _
  · exact opt_scanl_nonneg ps STARTING_CAPITAL (by norm_num [STARTING_CAPITAL]) hps
  · exact rb_scanl_nonneg qs STARTING_CAPITAL (by norm_num [STARTING_CAPITAL]) hqs

/-- C4 witness: a single total-loss position under each policy leaves
the whole trajectory non-negative. -/
theorem C4_capital_cap_witness :
    (∀ c ∈ opt_traj [⟨1, "MEDIUM", "other", -1⟩], 0 ≤ c) ∧
    (∀ c ∈ rb_traj [⟨1, "MEDIUM", "other", -1⟩], 0 ≤ c) := by
  have h := C4_capital_cap [⟨1, "MEDIUM", "other", -1⟩] [⟨1, "MEDIUM", "other", -1⟩]
    (by intro p hp; rw [List.mem_singleton] at hp; subst hp; norm_num)
    (by intro q hq; rw [List.mem_singleton] at hq; subst hq; norm_num)
  exact ⟨h.2.2.1, h.2.2.2⟩

/-- The population variance of a singleton return list is zero. -/
lemma calcVar_singleton (r : ℚ) : calcVar [r] = 0 := by
  simp [calcVar, calcMean]

/-- Rounding the real number 1 to 3 decimals gives 1. -/
lemma pyRoundR_one : pyRoundR 1 3 = 1 := by
  have hfl : ⌊(1:ℝ) * 10 ^ 3⌋ = 1000 := by
    norm_num
  unfold pyRoundR pyRoundIntR
  rw [hfl]
  norm_num

/-- Rounding the real number 0 to any number of decimals gives 0. -/
lemma pyRoundR_zero (d : ℕ) : pyRoundR 0 d = 0 := by
  have hfl : ⌊(0:ℝ) * 10 ^ d⌋ = 0 := by
    norm_num
  unfold pyRoundR pyRoundIntR
  rw [hfl]
  norm_num

/-- The sharpe of the singleton return +0.10 is 1. -/
lemma calcSharpe_pos_single : calcSharpe [(1:ℚ)/10] = 1 := by
  have hstd : calcStd [(1:ℚ)/10] = 0 := by
    unfold calcStd
    norm_num
  unfold calcSharpe
  rw [hstd]
  rw [if_neg (lt_irrefl (0:ℝ))]
  rw [if_pos]
  simp [calcMean]

/-- The sharpe of the singleton return −0.10 is 0. -/
lemma calcSharpe_neg_single : calcSharpe [-((1:ℚ)/10)] = 0 := by
  have hstd : calcStd [-((1:ℚ)/10)] = 0 := by
    unfold calcStd
    norm_num
  unfold calcSharpe
  rw [hstd]
  rw [if_neg (lt_irrefl (0:ℝ))]
  rw [if_neg]
  simp [calcMean]

/-- C2: on a non-empty return list the scorer computes
`mean = sum/n`, the population standard deviation
`std = sqrt(sum((r-mean)^2)/n)` (0 whenever `n ≤ 1`), and
`sharpe = mean/std` when `std > 0` and `1` or `0` (by the sign of the
mean) when `std = 0`; a single +0.10 return scores sharpe 1, a single
−0.10 return scores 0, and the empty input yields the all-zero
record. -/
theorem C2_scorer (returns pnls : List ℚ) (h : returns ≠ []) :
    calcMean returns = returns.sum / returns.length ∧
    calcStd returns =
      Real.sqrt (((returns.map (fun r => (r - calcMean returns) ^ 2)).sum / returns.length : ℚ)) ∧
    (returns.length ≤ 1 → calcStd returns = 0) ∧
    (0 < calcStd returns →
      calcSharpe returns = (calcMean returns : ℝ) / calcStd returns) ∧
    (calcStd returns = 0 →
      calcSharpe returns = if 0 < calcMean returns then (1:ℝ) else 0) ∧
    calcSharpe [(1:ℚ)/10] = 1 ∧ calcSharpe [-((1:ℚ)/10)] = 0 ∧
    (calc_stats [(1:ℚ)/10] []).sharpe = 1 ∧
    (calc_stats [-((1:ℚ)/10)] []).sharpe = 0 ∧
    calc_stats ([] : List ℚ) pnls = ⟨0, 0, 0, 0, 0, 0⟩ := by
  refine ⟨rfl, ?_, ?_, ?_, ?_, calcSharpe_pos_single, calcSharpe_neg_single, ?_, ?_, ?_⟩
  · unfold calcStd
    split_ifs with hn
    · rfl
    · have hlen : returns.length = 1 := by
        have h0 : returns.length ≠ 0 := by
          simpa [List.length_eq_zero] using h
        omega
      obtain ⟨r, hr⟩ := List.length_eq_one.1 hlen
      subst hr
      have : calcVar [r] = 0 := calcVar_singleton r
      unfold calcVar at this
      rw [this]
      simp
  · intro hn
    unfold calcStd
    rw [if_neg (by omega)]
  · intro hstd
    unfold calcSharpe
    rw [if_pos hstd]
  · intro hstd
    unfold calcSharpe
    rw [hstd]
    rw [if_neg (lt_irrefl (0:ℝ))]
  · have : calc_stats [(1:ℚ)/10] [] =
        { trades := 1
          winRate := pyRound (((([(1:ℚ)/10]).countP (fun r => 0 < r) : ℚ)) / 1 * 100) 1
          avgReturn := pyRound (calcMean [(1:ℚ)/10] * 100) 2
          volatility := pyRoundR (calcStd [(1:ℚ)/10] * 100) 2
          sharpe := pyRoundR (calcSharpe [(1:ℚ)/10]) 3
          totalPnl := pyRound ([] : List ℚ).sum 2 } := by
      unfold calc_stats
      rw [if_neg (by simp)]
      simp
    rw [this]
    show pyRoundR (calcSharpe [(1:ℚ)/10]) 3 = 1
    rw [calcSharpe_pos_single, pyRoundR_one]
  · have : (calc_stats [-((1:ℚ)/10)] []).sharpe = pyRoundR (calcSharpe [-((1:ℚ)/10)]) 3 := by
      unfold calc_stats
      rw [if_neg (by simp)]
    rw [this, calcSharpe_neg_single, pyRoundR_zero]
  · unfold calc_stats
    rw [if_pos rfl]

/-- C2 witness: the scorer theorem applied to the singleton +0.10
return list. -/
theorem C2_scorer_witness :
    calcMean [(1:ℚ)/10] = ([(1:ℚ)/10]).sum / (([(1:ℚ)/10]).length : ℚ) ∧
    calcSharpe [(1:ℚ)/10] = 1 :=
  ⟨(C2_scorer [(1:ℚ)/10] [] (by simp)).1,
   (C2_scorer [(1:ℚ)/10] [] (by simp)).2.2.2.2.2.1⟩

/-- Inserting an element is a permutation of consing it. -/
lemma insertLe_perm (le : α → α → Bool) (x : α) :
    ∀ l : List α, (insertLe le x l).Perm (x :: l) := by
  intro l
  induction l with
  | nil => exact List.Perm.refl _
  | cons y ys ih =>
    unfold insertLe
    by_cases h : le x y
    · rw [if_pos h]
    · rw [if_neg h]
      exact (ih.cons y).trans (List.Perm.swap x y ys)

/-- Insertion sort permutes its input. -/
lemma isort_perm (le : α → α → Bool) : ∀ l : List α, (isort le l).Perm l := by
  intro l
  induction l with
  | nil => exact List.Perm.refl _
  | cons x xs ih =>
    exact (insertLe_perm le x (isort le xs)).trans (ih.cons x)

/-- Inserting into a `≤`-sorted list of naturals keeps it sorted. -/
lemma insertLe_sorted (x : ℕ) :
    ∀ {l : List ℕ}, l.Pairwise (· ≤ ·) → (insertLe natLe x l).Pairwise (· ≤ ·) := by
  intro l
  induction l with
  | nil =>
    intro _
    simp [insertLe]
  | cons y ys ih =>
    intro hs
    rw [List.pairwise_cons] at hs
    unfold insertLe
    by_cases h : natLe x y
    · rw [if_pos h]
      have hxy : x ≤ y := by simpa [natLe] using h
      refine List.Pairwise.cons ?_ (List.Pairwise.cons hs.1 hs.2)
      intro z hz
      rcases List.mem_cons.1 hz with rfl | hz
      · exact hxy
      · exact le_trans hxy (hs.1 z hz)
    · rw [if_neg h]
      have hyx : y ≤ x := by
        have : ¬ x ≤ y := by simpa [natLe] using h
        omega
      refine List.Pairwise.cons ?_ (ih hs.2)
      intro z hz
      have hz' : z ∈ x :: ys := (insertLe_perm natLe x ys).mem_iff.1 hz
      rcases List.mem_cons.1 hz' with rfl | hz'
      · exact hyx
      · exact hs.1 z hz'

/-- Insertion sort on naturals sorts. -/
lemma isort_sorted : ∀ l : List ℕ, (isort natLe l).Pairwise (· ≤ ·) := by
  intro l
  induction l with
  | nil => simp [isort]
  | cons x xs ih => exact insertLe_sorted x ih

/-- The head of a sorted list bounds every element from below. -/
lemma sorted_head_le {a : ℕ} {l : List ℕ} (hs : (a :: l).Pairwise (· ≤ ·)) :
    ∀ u ∈ a :: l, a ≤ u := by
  intro u hu
  rcases List.mem_cons.1 hu with rfl | hu
  · exact le_refl u
  · exact (List.pairwise_cons.1 hs).1 u hu

/-- The last element of a sorted list bounds every element from above. -/
lemma sorted_getLast_ge :
    ∀ {l : List ℕ}, l.Pairwise (· ≤ ·) → ∀ {t : ℕ}, l.getLast? = some t →
      ∀ u ∈ l, u ≤ t := by
  intro l
  induction l with
  | nil =>
    intro _ t ht
    simp at ht
  | cons a l ih =>
    intro hs t ht u hu
    cases l with
    | nil =>
      simp at ht
      subst ht
      rw [List.mem_singleton] at hu
      subst hu
      exact le_refl u
    | cons b l' =>
      rw [List.getLast?_cons_cons] at ht
      have hmem : t ∈ b :: l' := List.mem_of_mem_getLast? ht
      rcases List.mem_cons.1 hu with rfl | hu
      · exact (List.pairwise_cons.1 hs).1 t hmem
      · exact ih (List.pairwise_cons.1 hs).2 ht u hu

/-- The tail-update lemmas of the grouping loop: the buys bucket. -/
lemma updAcc_buys (m : MarketAcc) (t : Trade) :
    (updAcc m t).buys = m.buys ++ (if isBuyFill t then [tradeEntry t] else []) := by
  by_cases h1 : t.eventType = "REDEMPTION" <;> by_cases h2 : t.side = "BUY" <;>
    by_cases h3 : t.side = "SELL" <;> simp [updAcc, isBuyFill, h1, h2, h3]

/-- The tail-update lemmas of the grouping loop: the sells bucket. -/
lemma updAcc_sells (m : MarketAcc) (t : Trade) :
    (updAcc m t).sells = m.sells ++ (if isSellFill t then [tradeEntry t] else []) := by
  by_cases h1 : t.eventType = "REDEMPTION" <;> by_cases h2 : t.side = "BUY" <;>
    by_cases h3 : t.side = "SELL" <;> simp [updAcc, isSellFill, h1, h2, h3]

/-- The tail-update lemmas of the grouping loop: the redemptions bucket. -/
lemma updAcc_redemptions (m : MarketAcc) (t : Trade) :
    (updAcc m t).redemptions = m.redemptions ++ (if isRedFill t then [tradeEntry t] else []) := by
  by_cases h1 : t.eventType = "REDEMPTION" <;> by_cases h2 : t.side = "BUY" <;>
    by_cases h3 : t.side = "SELL" <;> simp [updAcc, isRedFill, h1, h2, h3]

/-- The derived slug is never empty. -/
lemma tradeSlug_ne_empty (t : Trade) : tradeSlug t ≠ "" := by
  unfold tradeSlug
  split_ifs with h
  · decide
  · exact h

/-- The derived title is never empty. -/
lemma tradeTitle_ne_empty (t : Trade) : tradeTitle t ≠ "" := by
  unfold tradeTitle
  split_ifs with h
  · exact tradeSlug_ne_empty t
  · exact h

/-- Each loop iteration overwrites the accumulator title with the
fill's derived title (which is never empty). -/
lemma updAcc_title (m : MarketAcc) (t : Trade) : (updAcc m t).title = tradeTitle t := by
  by_cases h1 : t.eventType = "REDEMPTION" <;> by_cases h2 : t.side = "BUY" <;>
    by_cases h3 : t.side = "SELL" <;> simp [updAcc, h1, h2, h3, tradeTitle_ne_empty t]

/-- The buys bucket of a key is the entry list of its buy fills. -/
lemma accOf_go_buys (k : String) :
    ∀ (ts : List Trade) (m : MarketAcc),
      (List.foldl (fun m t => if tradeKey t = k then updAcc m t else m) m ts).buys
        = m.buys ++ (ts.filter (fun t => decide (tradeKey t = k) && isBuyFill t)).map tradeEntry := by
  intro ts
  induction ts with
  | nil =>
    intro m
    simp
  | cons t ts ih =>
    intro m
    rw [List.foldl_cons, List.filter_cons]
    by_cases hk : tradeKey t = k
    · rw [if_pos hk, ih, updAcc_buys]
      by_cases hb : isBuyFill t <;> simp [hb, hk]
    · rw [if_neg hk, ih]
      simp [hk]

/-- The sells bucket of a key is the entry list of its sell fills. -/
lemma accOf_go_sells (k : String) :
    ∀ (ts : List Trade) (m : MarketAcc),
      (List.foldl (fun m t => if tradeKey t = k then updAcc m t else m) m ts).sells
        = m.sells ++ (ts.filter (fun t => decide (tradeKey t = k) && isSellFill t)).map tradeEntry := by
  intro ts
  induction ts with
  | nil =>
    intro m
    simp
  | cons t ts ih =>
    intro m
    rw [List.foldl_cons, List.filter_cons]
    by_cases hk : tradeKey t = k
    · rw [if_pos hk, ih, updAcc_sells]
      by_cases hb : isSellFill t <;> simp [hb, hk]
    · rw [if_neg hk, ih]
      simp [hk]

/-- The redemptions bucket of a key is the entry list of its
redemption fills. -/
lemma accOf_go_redemptions (k : String) :
    ∀ (ts : List Trade) (m : MarketAcc),
      (List.foldl (fun m t => if tradeKey t = k then updAcc m t else m) m ts).redemptions
        = m.redemptions ++ (ts.filter (fun t => decide (tradeKey t = k) && isRedFill t)).map tradeEntry := by
  intro ts
  induction ts with
  | nil =>
    intro m
    simp
  | cons t ts ih =>
    intro m
    rw [List.foldl_cons, List.filter_cons]
    by_cases hk : tradeKey t = k
    · rw [if_pos hk, ih, updAcc_redemptions]
      by_cases hb : isRedFill t <;> simp [hb, hk]
    · rw [if_neg hk, ih]
      simp [hk]

/-- The final title of a key is the derived title of its last fill. -/
lemma accOf_go_title (k : String) :
    ∀ (ts : List Trade) (m : MarketAcc),
      (List.foldl (fun m t => if tradeKey t = k then updAcc m t else m) m ts).title
        = ((ts.filter (fun t => decide (tradeKey t = k))).map tradeTitle).getLastD m.title := by
  intro ts
  induction ts with
  | nil =>
    intro m
    simp
  | cons t ts ih =>
    intro m
    rw [List.foldl_cons, List.filter_cons]
    by_cases hk : tradeKey t = k
    · rw [if_pos hk, ih, updAcc_title]
      rw [if_pos (by simpa using hk), List.map_cons, List.getLastD_cons]
    · rw [if_neg hk, ih]
      rw [if_neg (by simpa using hk)]

/-- `accOf` buys as a filter of the fills. -/
lemma accOf_buys (trades : List Trade) (k : String) :
    (accOf trades k).buys
      = (trades.filter (fun t => decide (tradeKey t = k) && isBuyFill t)).map tradeEntry := by
  unfold accOf
  rw [accOf_go_buys]
  simp [emptyAcc]

/-- `accOf` sells as a filter of the fills. -/
lemma accOf_sells (trades : List Trade) (k : String) :
    (accOf trades k).sells
      = (trades.filter (fun t => decide (tradeKey t = k) && isSellFill t)).map tradeEntry := by
  unfold accOf
  rw [accOf_go_sells]
  simp [emptyAcc]

/-- `accOf` redemptions as a filter of the fills. -/
lemma accOf_redemptions (trades : List Trade) (k : String) :
    (accOf trades k).redemptions
      = (trades.filter (fun t => decide (tradeKey t = k) && isRedFill t)).map tradeEntry := by
  unfold accOf
  rw [accOf_go_redemptions]
  simp [emptyAcc]

/-- `accOf` title is the derived title of the key's last fill. -/
lemma accOf_title (trades : List Trade) (k : String) :
    (accOf trades k).title
      = ((trades.filter (fun t => decide (tradeKey t = k))).map tradeTitle).getLastD "" := by
  unfold accOf
  rw [accOf_go_title]
  rfl

/-- Membership in the folded key list. -/
lemma marketKeys_go_mem (k : String) :
    ∀ (ts : List Trade) (ks : List String),
      k ∈ ts.foldl (fun ks t => if tradeKey t ∈ ks then ks else ks ++ [tradeKey t]) ks
        ↔ k ∈ ks ∨ ∃ t ∈ ts, tradeKey t = k := by
  intro ts
  induction ts with
  | nil =>
    intro ks
    simp
  | cons t ts ih =>
    intro ks
    rw [List.foldl_cons]
    by_cases h : tradeKey t ∈ ks
    · rw [if_pos h, ih]
      constructor
      · rintro (hk | ⟨u, hu, hku⟩)
        · exact Or.inl hk
        · exact Or.inr ⟨u, List.mem_cons_of_mem _ hu, hku⟩
      · rintro (hk | ⟨u, hu, hku⟩)
        · exact Or.inl hk
        · rcases List.mem_cons.1 hu with rfl | hu
          · exact Or.inl (hku ▸ h)
          · exact Or.inr ⟨u, hu, hku⟩
    · rw [if_neg h, ih]
      constructor
      · rintro (hk | ⟨u, hu, hku⟩)
        · rcases List.mem_append.1 hk with hk | hk
          · exact Or.inl hk
          · rw [List.mem_singleton] at hk
            exact Or.inr ⟨t, List.mem_cons_self t ts, hk.symm⟩
        · exact Or.inr ⟨u, List.mem_cons_of_mem _ hu, hku⟩
      · rintro (hk | ⟨u, hu, hku⟩)
        · exact Or.inl (List.mem_append_left _ hk)
        · rcases List.mem_cons.1 hu with rfl | hu
          · exact Or.inl (List.mem_append_right _ (by rw [List.mem_singleton]; exact hku.symm))
          · exact Or.inr ⟨u, hu, hku⟩

/-- A key is grouped iff some fill bears it. -/
lemma mem_marketKeys (trades : List Trade) (k : String) :
    k ∈ marketKeys trades ↔ ∃ t ∈ trades, tradeKey t = k := by
  unfold marketKeys
  rw [marketKeys_go_mem]
  simp

/-- Looking a key up in a keyed map of a key list. -/
lemma lookup_keyed_map (f : String → MarketAcc) (k : String) :
    ∀ ks : List String,
      List.lookup k (ks.map (fun a => (a, f a))) = if k ∈ ks then some (f k) else none := by
  intro ks
  induction ks with
  | nil => simp
  | cons a ks ih =>
    by_cases h : k = a
    · subst h
      rw [List.map_cons, List.lookup_cons]
      simp
    · rw [List.map_cons, List.lookup_cons]
      have hbeq : (k == a) = false := by simpa using h
      simp only [hbeq]
      rw [ih]
      by_cases hmem : k ∈ ks
      · simp [hmem, List.mem_cons, h]
      · simp [hmem, List.mem_cons, h]

/-- Looking a key up in the grouping dict. -/
lemma lookup_buildMarkets (trades : List Trade) (k : String) :
    List.lookup k (buildMarkets trades)
      = if k ∈ marketKeys trades then some (accOf trades k) else none := by
  unfold buildMarkets
  rw [lookup_keyed_map]

/-- The buy share-size of a key is permutation-invariant. -/
lemma buySize_accOf_perm {t1 t2 : List Trade} (h : t1.Perm t2) (k : String) :
    buySize (accOf t1 k) = buySize (accOf t2 k) := by
  unfold buySize
  rw [accOf_buys, accOf_buys]
  exact List.Perm.sum_eq (((h.filter _).map tradeEntry).map Entry.size)

/-- The sell share-size of a key is permutation-invariant. -/
lemma sellSize_accOf_perm {t1 t2 : List Trade} (h : t1.Perm t2) (k : String) :
    sellSize (accOf t1 k) = sellSize (accOf t2 k) := by
  unfold sellSize
  rw [accOf_sells, accOf_sells]
  exact List.Perm.sum_eq (((h.filter _).map tradeEntry).map Entry.size)

/-- The bought notional of a key is permutation-invariant. -/
lemma totalBought_accOf_perm {t1 t2 : List Trade} (h : t1.Perm t2) (k : String) :
    totalBought (accOf t1 k) = totalBought (accOf t2 k) := by
  unfold totalBought
  rw [accOf_buys, accOf_buys]
  exact List.Perm.sum_eq (((h.filter _).map tradeEntry).map Entry.usdc)

/-- The sold notional of a key is permutation-invariant. -/
lemma totalSold_accOf_perm {t1 t2 : List Trade} (h : t1.Perm t2) (k : String) :
    totalSold (accOf t1 k) = totalSold (accOf t2 k) := by
  unfold totalSold
  rw [accOf_sells, accOf_sells, accOf_redemptions, accOf_redemptions]
  rw [List.Perm.sum_eq (((h.filter _).map tradeEntry).map Entry.usdc),
    List.Perm.sum_eq (((h.filter (fun t => decide (tradeKey t = k) && isRedFill t)).map tradeEntry).map Entry.usdc)]

/-- Whether a key has redemption fills is permutation-invariant. -/
lemma redemptions_nil_accOf_perm {t1 t2 : List Trade} (h : t1.Perm t2) (k : String) :
    (accOf t1 k).redemptions = [] ↔ (accOf t2 k).redemptions = [] := by
  have hp : ((accOf t1 k).redemptions).Perm ((accOf t2 k).redemptions) := by
    rw [accOf_redemptions, accOf_redemptions]
    exact (h.filter _).map tradeEntry
  rw [← List.length_eq_zero, ← List.length_eq_zero, hp.length_eq]

/-- The status only reads the redemption emptiness and the two
share-sizes. -/
lemma statusOf_congr {m m' : MarketAcc}
    (hred : m.redemptions = [] ↔ m'.redemptions = [])
    (hb : buySize m = buySize m') (hs : sellSize m = sellSize m') :
    statusOf m = statusOf m' := by
  unfold statusOf
  rw [hb, hs]
  by_cases h1 : m.redemptions = []
  · have h2 : m'.redemptions = [] := hred.1 h1
    simp [h1, h2]
  · have h2 : m'.redemptions ≠ [] := fun hh => h1 (hred.2 hh)
    simp [h1, h2]

/-- C6: for every permutation of the fill list, the aggregator yields
for each market key a position with the same status and the same pnl
(and the same key set). -/
theorem C6_perm_invariant (t1 t2 : List Trade) (hp : t1.Perm t2) :
    (∀ k, k ∈ marketKeys t1 ↔ k ∈ marketKeys t2) ∧
    ∀ k,
      Option.map (fun m => ((mkPosition m).status, (mkPosition m).pnl))
        (List.lookup k (buildMarkets t1))
      = Option.map (fun m => ((mkPosition m).status, (mkPosition m).pnl))
        (List.lookup k (buildMarkets t2)) := by
  have hkeys : ∀ k, k ∈ marketKeys t1 ↔ k ∈ marketKeys t2 := by
    intro k
    rw [mem_marketKeys, mem_marketKeys]
    constructor
    · rintro ⟨t, ht, hk⟩
      exact ⟨t, hp.mem_iff.1 ht, hk⟩
    · rintro ⟨t, ht, hk⟩
      exact ⟨t, hp.mem_iff.2 ht, hk⟩
  refine ⟨hkeys, ?_⟩
  intro k
  rw [lookup_buildMarkets, lookup_buildMarkets]
  by_cases hk : k ∈ marketKeys t1
  · rw [if_pos hk, if_pos ((hkeys k).1 hk)]
    have hstatus : statusOf (accOf t1 k) = statusOf (accOf t2 k) :=
      statusOf_congr (redemptions_nil_accOf_perm hp k) (buySize_accOf_perm hp k)
        (sellSize_accOf_perm hp k)
    have hpnl : pnlOf (accOf t1 k) = pnlOf (accOf t2 k) := by
      unfold pnlOf
      rw [totalBought_accOf_perm hp k, totalSold_accOf_perm hp k]
    have hpair : ((mkPosition (accOf t1 k)).status, (mkPosition (accOf t1 k)).pnl)
        = ((mkPosition (accOf t2 k)).status, (mkPosition (accOf t2 k)).pnl) := by
      simp only [mkPosition, hstatus, hpnl]
    simp only [Option.map_some', hpair]
  · rw [if_neg hk, if_neg (fun hh => hk ((hkeys k).2 hh))]

/-- C6 witness: the permutation theorem applied to a buy/sell pair in
either order. -/
theorem C6_perm_invariant_witness :
    Option.map (fun m => ((mkPosition m).status, (mkPosition m).pnl))
      (List.lookup "s|o" (buildMarkets [exPermBuy, exPermSell]))
    = Option.map (fun m => ((mkPosition m).status, (mkPosition m).pnl))
      (List.lookup "s|o" (buildMarkets [exPermSell, exPermBuy])) :=
  (C6_perm_invariant [exPermBuy, exPermSell] [exPermSell, exPermBuy]
    (List.Perm.swap exPermSell exPermBuy [])).2 "s|o"

/-- The head of the sorted timestamps is a minimum of the input. -/
lemma isort_head?_min (l0 : List ℕ) {t : ℕ}
    (ht : (isort natLe l0).head? = some t) : t ∈ l0 ∧ ∀ u ∈ l0, t ≤ u := by
  have hperm := isort_perm natLe l0
  have hsort := isort_sorted l0
  have htmem : t ∈ isort natLe l0 := List.mem_of_mem_head? (by rw [ht]; exact rfl)
  refine ⟨hperm.mem_iff.1 htmem, ?_⟩
  intro u hu
  have hu' : u ∈ isort natLe l0 := hperm.mem_iff.2 hu
  cases hh : isort natLe l0 with
  | nil =>
    rw [hh] at ht
    exact absurd ht (by simp)
  | cons a rest =>
    rw [hh] at ht
    have ha : a = t := by simpa using ht
    subst ha
    rw [hh] at hsort hu'
    exact sorted_head_le hsort u hu'

/-- The last of the sorted timestamps is a maximum of the input. -/
lemma isort_getLast?_max (l0 : List ℕ) {t : ℕ}
    (ht : (isort natLe l0).getLast? = some t) : t ∈ l0 ∧ ∀ u ∈ l0, u ≤ t := by
  have hperm := isort_perm natLe l0
  have hsort := isort_sorted l0
  have htmem : t ∈ isort natLe l0 := List.mem_of_mem_getLast? (by rw [ht]; exact rfl)
  exact ⟨hperm.mem_iff.1 htmem,
    fun u hu => sorted_getLast_ge hsort ht u (hperm.mem_iff.2 hu)⟩

/-- Sorting a list yields the empty list exactly on empty input. -/
lemma isort_eq_nil_iff (l0 : List ℕ) : isort natLe l0 = [] ↔ l0 = [] := by
  have hlen := (isort_perm natLe l0).length_eq
  rw [← List.length_eq_zero, ← List.length_eq_zero, hlen]

/-- Python rounding fixes 0 at every precision. -/
lemma pyRound_zero (d : ℕ) : pyRound 0 d = 0 := by
  unfold pyRound pyRoundInt
  norm_num

/-- C8 (amended): an aggregated position's `firstTrade`/`lastTrade`
are the minimum/maximum over the timestamps of its constituent fills
that carry a nonzero timestamp, and are empty when no fill does. -/
theorem C8_first_last_amended (trades : List Trade) (k : String) (m : MarketAcc)
    (_hm : List.lookup k (buildMarkets trades) = some m) :
    ((mkPosition m).firstTrade = none ↔ (fillTs m).filter (fun ts => ts ≠ 0) = []) ∧
    (∀ t, (mkPosition m).firstTrade = some t ↔
      (t ∈ (fillTs m).filter (fun ts => ts ≠ 0) ∧
        ∀ u ∈ (fillTs m).filter (fun ts => ts ≠ 0), t ≤ u)) ∧
    ((mkPosition m).lastTrade = none ↔ (fillTs m).filter (fun ts => ts ≠ 0) = []) ∧
    (∀ t, (mkPosition m).lastTrade = some t ↔
      (t ∈ (fillTs m).filter (fun ts => ts ≠ 0) ∧
        ∀ u ∈ (fillTs m).filter (fun ts => ts ≠ 0), u ≤ t)) := by
  have hfirst : (mkPosition m).firstTrade
      = (isort natLe ((fillTs m).filter (fun ts => ts ≠ 0))).head? := rfl
  have hlast : (mkPosition m).lastTrade
      = (isort natLe ((fillTs m).filter (fun ts => ts ≠ 0))).getLast? := rfl
  refine ⟨?_, ?_, ?_, ?_⟩
  · rw [hfirst, List.head?_eq_none_iff, isort_eq_nil_iff]
  · intro t
    rw [hfirst]
    constructor
    · exact fun ht => isort_head?_min _ ht
    · rintro ⟨htmem, hmin⟩
      cases hh : (isort natLe ((fillTs m).filter (fun ts => ts ≠ 0))).head? with
      | none =>
        rw [List.head?_eq_none_iff, isort_eq_nil_iff] at hh
        rw [hh] at htmem
        exact absurd htmem (List.not_mem_nil t)
      | some a =>
        obtain ⟨ha1, ha2⟩ := isort_head?_min _ hh
        rw [le_antisymm (hmin a ha1) (ha2 t htmem)]
  · rw [hlast, List.getLast?_eq_none_iff, isort_eq_nil_iff]
  · intro t
    rw [hlast]
    constructor
    · exact fun ht => isort_getLast?_max _ ht
    · rintro ⟨htmem, hmax⟩
      cases hh : (isort natLe ((fillTs m).filter (fun ts => ts ≠ 0))).getLast? with
      | none =>
        rw [List.getLast?_eq_none_iff, isort_eq_nil_iff] at hh
        rw [hh] at htmem
        exact absurd htmem (List.not_mem_nil t)
      | some a =>
        obtain ⟨ha1, ha2⟩ := isort_getLast?_max _ hh
        rw [le_antisymm (ha2 t htmem) (hmax a ha1)]

/-- C8 counterexample: with a missing (zero) timestamp on one fill,
`firstTrade` is not the minimum over all constituent fills — the zero
timestamp is silently dropped. -/
theorem C8_counterexample :
    (aggregate_trades exTsTrades).map Position.firstTrade = [some 100] ∧
    (0 : ℕ) ∈ fillTs (accOf exTsTrades "s|o") ∧ ¬ (100 : ℕ) ≤ 0 := by
  refine ⟨by decide, by decide, by decide⟩

/-- C8 witness: the amended theorem evaluated on the sample fills
pins `firstTrade` to the least nonzero timestamp 100. -/
theorem C8_first_last_amended_witness :
    (mkPosition (accOf exTsTrades "s|o")).firstTrade = some 100 := by
  have h := C8_first_last_amended exTsTrades "s|o" (accOf exTsTrades "s|o") rfl
  exact (h.2.1 100).2 (by decide)

/-- The position of any grouped key appears in the aggregator output. -/
lemma mkPosition_mem_aggregate (trades : List Trade) (k : String)
    (hk : k ∈ marketKeys trades) :
    mkPosition (accOf trades k) ∈ aggregate_trades trades := by
  unfold aggregate_trades
  apply (isort_perm _ _).mem_iff.2
  apply List.mem_map.2
  refine ⟨(k, accOf trades k), ?_, rfl⟩
  unfold buildMarkets
  exact List.mem_map_of_mem (fun a => (a, accOf trades a)) hk

/-- C10 (amended): a market key all of whose fills are neither
redemptions nor BUY/SELL sided still yields an output position, with
zero trade count, OPEN status, zero pnl and notionals, empty first and
last trade stamps, and the derived title of the group's LAST fill. -/
theorem C10_sideless_amended (trades : List Trade) (k : String)
    (hk : k ∈ marketKeys trades)
    (hside : ∀ t ∈ trades, tradeKey t = k →
      t.eventType ≠ "REDEMPTION" ∧ t.side ≠ "BUY" ∧ t.side ≠ "SELL") :
    ∃ p ∈ aggregate_trades trades,
      p.tradeCount = 0 ∧ p.status = "open" ∧ p.pnl = 0 ∧ p.totalBought = 0 ∧
      p.totalSold = 0 ∧ p.firstTrade = none ∧ p.lastTrade = none ∧
      p.market = ((trades.filter (fun t => decide (tradeKey t = k))).map tradeTitle).getLastD "" := by
  have hb : (accOf trades k).buys = [] := by
    rw [accOf_buys]
    have hf : trades.filter (fun t => decide (tradeKey t = k) && isBuyFill t) = [] := by
      rw [List.filter_eq_nil_iff]
      intro t ht
      by_cases hkk : tradeKey t = k
      · simp [hkk, isBuyFill, (hside t ht hkk).2.1]
      · simp [hkk]
    rw [hf]
    rfl
  have hs : (accOf trades k).sells = [] := by
    rw [accOf_sells]
    have hf : trades.filter (fun t => decide (tradeKey t = k) && isSellFill t) = [] := by
      rw [List.filter_eq_nil_iff]
      intro t ht
      by_cases hkk : tradeKey t = k
      · simp [hkk, isSellFill, (hside t ht hkk).2.2]
      · simp [hkk]
    rw [hf]
    rfl
  have hr : (accOf trades k).redemptions = [] := by
    rw [accOf_redemptions]
    have hf : trades.filter (fun t => decide (tradeKey t = k) && isRedFill t) = [] := by
      rw [List.filter_eq_nil_iff]
      intro t ht
      by_cases hkk : tradeKey t = k
      · simp [hkk, isRedFill, (hside t ht hkk).1]
      · simp [hkk]
    rw [hf]
    rfl
  refine ⟨mkPosition (accOf trades k), mkPosition_mem_aggregate trades k hk, ?_⟩
  simp only [mkPosition]
  refine ⟨?_, ?_, ?_, ?_, ?_, ?_, ?_, ?_⟩
  · rw [hb, hs, hr]
    rfl
  · simp [statusOf, hr, hs, hb, sellSize, buySize]
  · have hzero : pnlOf (accOf trades k) = 0 := by
      simp [pnlOf, totalSold, totalBought, hb, hs, hr]
    rw [hzero, pyRound_zero]
  · have hzero : totalBought (accOf trades k) = 0 := by
      simp [totalBought, hb]
    rw [hzero, pyRound_zero]
  · have hzero : totalSold (accOf trades k) = 0 := by
      simp [totalSold, hs, hr]
    rw [hzero, pyRound_zero]
  · simp [allTs, fillTs, hb, hs, hr, isort]
  · simp [allTs, fillTs, hb, hs, hr, isort]
  · exact accOf_title trades k

/-- C10 counterexample: both sideless fills carry non-empty titles
"A" then "B"; the emitted position's market title is "B", the last
one, not the first non-empty title "A". -/
theorem C10_counterexample :
    (aggregate_trades exSideTrades).map Position.market = ["B"] ∧
    ((exSideTrades.map Trade.title).filter (fun s => s ≠ "")).head? = some "A" ∧
    ("B" : String) ≠ "A" := by
  refine ⟨by decide, by decide, by decide⟩

/-- C10 witness: the amended theorem evaluated on the sideless sample
group. -/
theorem C10_sideless_amended_witness :
    ∃ p ∈ aggregate_trades exSideTrades,
      p.tradeCount = 0 ∧ p.status = "open" ∧ p.pnl = 0 ∧ p.totalBought = 0 ∧
      p.totalSold = 0 ∧ p.firstTrade = none ∧ p.lastTrade = none ∧
      p.market = ((exSideTrades.filter (fun t => decide (tradeKey t = "s|o"))).map tradeTitle).getLastD "" :=
  C10_sideless_amended exSideTrades "s|o" (by decide) (by decide)

/-- The label "other" is boosted by neither cluster set. -/
lemma cluster_boost_other : cluster_boost "other" = 1 := by
  unfold cluster_boost
  rw [if_neg (by decide), if_neg (by decide), if_neg (by decide)]

/-- Python rounding fixes 1 at three decimals. -/
lemma pyRound_one : pyRound 1 3 = 1 := by
  unfold pyRound pyRoundInt
  have h : ⌊(1 : ℚ) * 10 ^ 3⌋ = 1000 := by
    rw [show ((1 : ℚ) * 10 ^ 3) = ((1000 : ℤ) : ℚ) by norm_num]
    exact Int.floor_intCast 1000
  rw [h]
  norm_num

/-- The simulator sharpe value of 1 is 1. -/
lemma tf_sharpe_val_one : tf_sharpe_val 1 = 1 := by
  unfold tf_sharpe_val
  rw [if_pos (by norm_num)]
  exact max_eq_right (by norm_num)

/-- The Optimal weight of `optPosA` is 1. -/
lemma opt_weight_A : opt_weight optPosA = 1 := by
  show min (tf_sharpe_val 1) 3 * insider_mult "MEDIUM" * cluster_boost "other" = 1
  rw [tf_sharpe_val_one, cluster_boost_other, min_eq_left (by norm_num : (1:ℚ) ≤ 3)]
  simp [insider_mult]

/-- The Optimal weight of `optPosB` is 0.5. -/
lemma opt_weight_B : opt_weight optPosB = 1/2 := by
  show min (tf_sharpe_val 1) 3 * insider_mult "LOW" * cluster_boost "other" = 1/2
  rw [tf_sharpe_val_one, cluster_boost_other, min_eq_left (by norm_num : (1:ℚ) ≤ 3)]
  simp [insider_mult]

/-- The Optimal weight of `optPosC` is 1. -/
lemma opt_weight_C : opt_weight optPosC = 1 := by
  show min (tf_sharpe_val 1) 3 * insider_mult "MEDIUM" * cluster_boost "other" = 1
  rw [tf_sharpe_val_one, cluster_boost_other, min_eq_left (by norm_num : (1:ℚ) ≤ 3)]
  simp [insider_mult]

/-- The recommended weight of a blended sharpe of 1 with MEDIUM risk
and an unboosted cluster is 1. -/
lemma rec_weight_one : rec_weight 1 "MEDIUM" "other" = 1 := by
  unfold rec_weight
  rw [cluster_boost_other, min_eq_right (by norm_num : (1:ℚ) ≤ 3),
    max_eq_right (by norm_num : (1/10:ℚ) ≤ 1)]
  have h : insider_mult "MEDIUM" = 1 := by simp [insider_mult]
  rw [h, show ((1:ℚ) * 1 * 1) = 1 by norm_num, pyRound_one]

/-- The Recency weight of `rbPosA` is 1. -/
lemma rb_weight_A : rb_weight rbPosA = 1 := rec_weight_one

/-- The Recency weight of `rbPosB` is 1. -/
lemma rb_weight_B : rb_weight rbPosB = 1 := rec_weight_one

/-- Step evaluation: `optPosA` from 10000. -/
lemma opt_step_SA : opt_step STARTING_CAPITAL optPosA = 10100 := by
  show STARTING_CAPITAL + min (BASE_POSITION * opt_weight optPosA) (STARTING_CAPITAL * (1/10)) * (1/10) = 10100
  rw [opt_weight_A]
  norm_num [STARTING_CAPITAL, BASE_POSITION, min_def]

/-- Step evaluation: `optPosB` from 10100. -/
lemma opt_step_AB : opt_step 10100 optPosB = 10200 := by
  show (10100 : ℚ) + min (BASE_POSITION * opt_weight optPosB) (10100 * (1/10)) * (1/5) = 10200
  rw [opt_weight_B]
  norm_num [BASE_POSITION, min_def]

/-- Step evaluation: `optPosB` from 10000. -/
lemma opt_step_SB : opt_step STARTING_CAPITAL optPosB = 10100 := by
  show STARTING_CAPITAL + min (BASE_POSITION * opt_weight optPosB) (STARTING_CAPITAL * (1/10)) * (1/5) = 10100
  rw [opt_weight_B]
  norm_num [STARTING_CAPITAL, BASE_POSITION, min_def]

/-- Step evaluation: `optPosA` from 10100. -/
lemma opt_step_BA : opt_step 10100 optPosA = 10200 := by
  show (10100 : ℚ) + min (BASE_POSITION * opt_weight optPosA) (10100 * (1/10)) * (1/10) = 10200
  rw [opt_weight_A]
  norm_num [BASE_POSITION, min_def]

/-- Step evaluation: `optPosC` from 10000. -/
lemma opt_step_SC : opt_step STARTING_CAPITAL optPosC = 10200 := by
  show STARTING_CAPITAL + min (BASE_POSITION * opt_weight optPosC) (STARTING_CAPITAL * (1/10)) * (1/5) = 10200
  rw [opt_weight_C]
  norm_num [STARTING_CAPITAL, BASE_POSITION, min_def]

/-- Step evaluation: `optPosC` from 10100. -/
lemma opt_step_AC : opt_step 10100 optPosC = 10300 := by
  show (10100 : ℚ) + min (BASE_POSITION * opt_weight optPosC) (10100 * (1/10)) * (1/5) = 10300
  rw [opt_weight_C]
  norm_num [BASE_POSITION, min_def]

/-- Step evaluation: `optPosA` from 10200. -/
lemma opt_step_CA : opt_step 10200 optPosA = 10300 := by
  show (10200 : ℚ) + min (BASE_POSITION * opt_weight optPosA) (10200 * (1/10)) * (1/10) = 10300
  rw [opt_weight_A]
  norm_num [BASE_POSITION, min_def]

/-- Step evaluation: `rbPosA` from 10000. -/
lemma rb_step_SA : rb_step STARTING_CAPITAL rbPosA = 10100 := by
  show STARTING_CAPITAL + min (BASE_POSITION * rb_weight rbPosA) (STARTING_CAPITAL * (1/10)) * (1/10) = 10100
  rw [rb_weight_A]
  norm_num [STARTING_CAPITAL, BASE_POSITION, min_def]

/-- Step evaluation: `rbPosB` from 10100. -/
lemma rb_step_AB : rb_step 10100 rbPosB = 10300 := by
  show (10100 : ℚ) + min (BASE_POSITION * rb_weight rbPosB) (10100 * (1/10)) * (1/5) = 10300
  rw [rb_weight_B]
  norm_num [BASE_POSITION, min_def]

/-- Step evaluation: `rbPosB` from 10000. -/
lemma rb_step_SB : rb_step STARTING_CAPITAL rbPosB = 10200 := by
  show STARTING_CAPITAL + min (BASE_POSITION * rb_weight rbPosB) (STARTING_CAPITAL * (1/10)) * (1/5) = 10200
  rw [rb_weight_B]
  norm_num [STARTING_CAPITAL, BASE_POSITION, min_def]

/-- Step evaluation: `rbPosA` from 10200. -/
lemma rb_step_BA : rb_step 10200 rbPosA = 10300 := by
  show (10200 : ℚ) + min (BASE_POSITION * rb_weight rbPosA) (10200 * (1/10)) * (1/10) = 10300
  rw [rb_weight_A]
  norm_num [BASE_POSITION, min_def]

/-- C7 counterexample: two distinct Optimal-policy positions with
different returns (+10% at weight 1, +20% at weight 0.5) whose two
orders produce the SAME capital trajectory [10000, 10100, 10200]:
permuting a position list with non-identical returns need not change
the trajectory. -/
theorem C7_counterexample :
    opt_traj [optPosA, optPosB] = opt_traj [optPosB, optPosA] ∧
    [optPosA, optPosB].Perm [optPosB, optPosA] ∧
    [optPosA, optPosB] ≠ [optPosB, optPosA] ∧
    optPosA.ret ≠ optPosB.ret := by
  refine ⟨?_, List.Perm.swap optPosB optPosA [], ?_, ?_⟩
  · simp only [opt_traj, List.scanl_cons, List.scanl_nil]
    rw [opt_step_SA, opt_step_AB, opt_step_SB, opt_step_BA]
  · simp [optPosA, optPosB]
  · norm_num [optPosA, optPosB]

/-- C7 (amended): the Optimal and Recency-Optimal replays are
path-dependent — there are position lists with non-identical returns
whose permutation DOES change the capital trajectory. -/
theorem C7_path_dependence :
    [optPosA, optPosC].Perm [optPosC, optPosA] ∧
    optPosA.ret ≠ optPosC.ret ∧
    opt_traj [optPosA, optPosC] ≠ opt_traj [optPosC, optPosA] ∧
    [rbPosA, rbPosB].Perm [rbPosB, rbPosA] ∧
    rbPosA.ret ≠ rbPosB.ret ∧
    rb_traj [rbPosA, rbPosB] ≠ rb_traj [rbPosB, rbPosA] := by
  have t1 : opt_traj [optPosA, optPosC] = [STARTING_CAPITAL, 10100, 10300] := by
    simp only [opt_traj, List.scanl_cons, List.scanl_nil]
    rw [opt_step_SA, opt_step_AC]
    rfl
  have t2 : opt_traj [optPosC, optPosA] = [STARTING_CAPITAL, 10200, 10300] := by
    simp only [opt_traj, List.scanl_cons, List.scanl_nil]
    rw [opt_step_SC, opt_step_CA]
    rfl
  have r1 : rb_traj [rbPosA, rbPosB] = [STARTING_CAPITAL, 10100, 10300] := by
    simp only [rb_traj, List.scanl_cons, List.scanl_nil]
    rw [rb_step_SA, rb_step_AB]
    rfl
  have r2 : rb_traj [rbPosB, rbPosA] = [STARTING_CAPITAL, 10200, 10300] := by
    simp only [rb_traj, List.scanl_cons, List.scanl_nil]
    rw [rb_step_SB, rb_step_BA]
    rfl
  refine ⟨List.Perm.swap optPosC optPosA [], ?_, ?_, List.Perm.swap rbPosB rbPosA [], ?_, ?_⟩
  · norm_num [optPosA, optPosC]
  · rw [t1, t2]
    norm_num
  · norm_num [rbPosA, rbPosB]
  · rw [r1, r2]
    norm_num

end ShadowTracker
